import Mathlib

/-!
Verification development for `scripts/generate.py` of the dashboard repository:
a shallow embedding of the ingestion pipeline (stable id assignment, signal
extraction, relevance filtering, timestamp parsing, merge into the persisted
store, retention pruning) together with theorems settling the specification
claims about it.

Machine integers are modelled as `Nat` with explicit reduction modulo `2 ^ 32`
where the source relies on 32-bit wraparound (the SHA-256 core).  Numeric
signal values are modelled as exact rationals; every operation the claims
exercise (`2.5 * 10 ^ 6`, comma-stripped integer parses) is exact in Python
floats as well, so the rational model is faithful on those inputs.
-/

namespace Gen

/-! ## SHA-256 over byte lists (`hashlib.sha256`), bytes as `Nat` below 256 -/

def m32 (n : Nat) : Nat := n % 4294967296

def rotr (n x : Nat) : Nat := m32 ((x >>> n) ||| (x <<< (32 - n)))

def not32 (x : Nat) : Nat := 4294967295 ^^^ x

def bsig0 (x : Nat) : Nat := rotr 2 x ^^^ rotr 13 x ^^^ rotr 22 x

def bsig1 (x : Nat) : Nat := rotr 6 x ^^^ rotr 11 x ^^^ rotr 25 x

def ssig0 (x : Nat) : Nat := rotr 7 x ^^^ rotr 18 x ^^^ (x >>> 3)

def ssig1 (x : Nat) : Nat := rotr 17 x ^^^ rotr 19 x ^^^ (x >>> 10)

def chFn (e f g : Nat) : Nat := (e &&& f) ^^^ (not32 e &&& g)

def majFn (a b c : Nat) : Nat := (a &&& b) ^^^ (a &&& c) ^^^ (b &&& c)

structure H8 where
  a : Nat
  b : Nat
  c : Nat
  d : Nat
  e : Nat
  f : Nat
  g : Nat
  h : Nat
deriving DecidableEq

def H0init : H8 :=
  ⟨1779033703, 3144134277, 1013904242, 2773480762,
   1359893119, 2600822924, 528734635, 1541459225⟩

def Kconst : List Nat :=
  [1116352408, 1899447441, 3049323471, 3921009573, 961987163,
   1508970993, 2453635748, 2870763221, 3624381080, 310598401,
   607225278, 1426881987, 1925078388, 2162078206, 2614888103,
   3248222580, 3835390401, 4022224774, 264347078, 604807628,
   770255983, 1249150122, 1555081692, 1996064986, 2554220882,
   2821834349, 2952996808, 3210313671, 3336571891, 3584528711,
   113926993, 338241895, 666307205, 773529912, 1294757372,
   1396182291, 1695183700, 1986661051, 2177026350, 2456956037,
   2730485921, 2820302411, 3259730800, 3345764771, 3516065817,
   3600352804, 4094571909, 275423344, 430227734, 506948616,
   659060556, 883997877, 958139571, 1322822218, 1537002063,
   1747873779, 1955562222, 2024104815, 2227730452, 2361852424,
   2428436474, 2756734187, 3204031479, 3329325298]

def toBE (k n : Nat) : List Nat :=
  (List.range k).map (fun i => (n >>> (8 * (k - 1 - i))) % 256)

def beWord (bs : List Nat) : Nat := bs.foldl (fun acc b => acc * 256 + b) 0

def padMsg (msg : List Nat) : List Nat :=
  let len := msg.length
  let z := (64 - ((len + 9) % 64)) % 64
  msg ++ [128] ++ List.replicate z 0 ++ toBE 8 (8 * len)

def blocksOf (padded : List Nat) : List (List Nat) :=
  (List.range (padded.length / 64)).map (fun i => (padded.drop (64 * i)).take 64)

def words16 (block : List Nat) : List Nat :=
  (List.range 16).map (fun i => beWord ((block.drop (4 * i)).take 4))

def scheduleStep (acc : List Nat) : List Nat :=
  let n := acc.length
  acc ++ [m32 (ssig1 (acc.getD (n - 2) 0) + acc.getD (n - 7) 0 +
               ssig0 (acc.getD (n - 15) 0) + acc.getD (n - 16) 0)]

def schedule (w16 : List Nat) : List Nat :=
  (List.range 48).foldl (fun acc _ => scheduleStep acc) w16

def roundStep (st : H8) (kw : Nat × Nat) : H8 :=
  let t1 := m32 (st.h + bsig1 st.e + chFn st.e st.f st.g + kw.1 + kw.2)
  let t2 := m32 (bsig0 st.a + majFn st.a st.b st.c)
  ⟨m32 (t1 + t2), st.a, st.b, st.c, m32 (st.d + t1), st.e, st.f, st.g⟩

def compress (hv : H8) (block : List Nat) : H8 :=
  let ws := schedule (words16 block)
  let st := (Kconst.zip ws).foldl roundStep hv
  ⟨m32 (hv.a + st.a), m32 (hv.b + st.b), m32 (hv.c + st.c), m32 (hv.d + st.d),
   m32 (hv.e + st.e), m32 (hv.f + st.f), m32 (hv.g + st.g), m32 (hv.h + st.h)⟩

def sha256 (msg : List Nat) : List Nat :=
  let hv := (blocksOf (padMsg msg)).foldl compress H0init
  toBE 4 hv.a ++ toBE 4 hv.b ++ toBE 4 hv.c ++ toBE 4 hv.d ++
  toBE 4 hv.e ++ toBE 4 hv.f ++ toBE 4 hv.g ++ toBE 4 hv.h

def hexAlphabet : List Char := "0123456789abcdef".data

def hexDigit (n : Nat) : Char := hexAlphabet.getD (n % 16) '0'

def bytesToHex : List Nat → List Char
  | [] => []
  | b :: bs => hexDigit (b / 16) :: hexDigit (b % 16) :: bytesToHex bs

/-- UTF-8 encoding of one character (`str.encode("utf-8")`, per code point). -/
def utf8Char (c : Char) : List Nat :=
  let n := c.toNat
  if n < 128 then [n]
  else if n < 2048 then [192 ||| (n >>> 6), 128 ||| (n &&& 63)]
  else if n < 65536 then
    [224 ||| (n >>> 12), 128 ||| ((n >>> 6) &&& 63), 128 ||| (n &&& 63)]
  else
    [240 ||| (n >>> 18), 128 ||| ((n >>> 12) &&& 63),
     128 ||| ((n >>> 6) &&& 63), 128 ||| (n &&& 63)]

def utf8 (s : String) : List Nat := s.data.flatMap utf8Char

/-- Embedding of `_stable_id`: `hashlib.sha256(url.encode("utf-8")).hexdigest()[:16]`. -/
def _stable_id (url : String) : String :=
  String.mk ((bytesToHex (sha256 (utf8 url))).take 16)

/-! ## String helpers (Python `str` methods, ASCII range — all pipeline
inputs the claims exercise are ASCII) -/

def isSpaceChar (c : Char) : Bool :=
  c = ' ' || c = '\t' || c = '\n' || c = '\x0d' || c = '\x0b' || c = '\x0c'

def isDigitChar (c : Char) : Bool := '0' ≤ c && c ≤ '9'

def isWordChar (c : Char) : Bool := c.isAlphanum || c = '_'

/-- Python `str.strip()`. -/
def pyStrip (s : String) : String :=
  String.mk (((s.data.dropWhile isSpaceChar).reverse.dropWhile isSpaceChar).reverse)

/-- Python `str.upper()`. -/
def pyUpper (s : String) : String := String.mk (s.data.map Char.toUpper)

/-- Python string comparison: lexicographic on code points, a strict prefix
sorts first. -/
def ltCP : List Char → List Char → Bool
  | [], [] => false
  | [], _ :: _ => true
  | _ :: _, [] => false
  | a :: as, b :: bs =>
      if a.toNat < b.toNat then true
      else if b.toNat < a.toNat then false
      else ltCP as bs

def strLt (a b : String) : Bool := ltCP a.data b.data

/-! ## The three signal regexes of `extract_signals`, compiled by hand.

`_MONEY_RE = r"\$\s?([0-9]+(?:\.[0-9]+)?)\s?(B|M|K|billion|million|thousand)?"`
`_SQFT_RE  = r"([0-9][0-9,]{2,})\s?(sq\.?\s?ft\.?|square\s+feet|sf)"`
`_JOBS_RE  = r"([0-9][0-9,]{1,})\s+(jobs|job)"`
all with `re.IGNORECASE`; `re.search` takes the leftmost match.  The greedy
digit/comma runs never need backtracking against the following `\s?`/`\s+`
or unit, because a shortened run always leaves a digit or comma in a spot
where the pattern then demands whitespace or a letter.  -/

/-- Case-insensitive literal match of `needle` against a prefix of `hay`. -/
def matchCI : List Char → List Char → Bool
  | [], _ => true
  | _ :: _, [] => false
  | n :: ns, h :: hs => (n.toLower = h.toLower) && matchCI ns hs

def digitsVal (ds : List Char) : Nat :=
  ds.foldl (fun acc c => acc * 10 + (c.toNat - 48)) 0

/-- An exact non-negative decimal `mantissa / 10 ^ exp`.  Every number the
extractor computes is such a decimal, and every arithmetic step the source
performs on it (`float` of a digit string, multiplication by a power of
ten) is exact in Python floats for the magnitudes at stake, so this models
the produced float values exactly while staying kernel-computable. -/
structure Dec where
  mantissa : Nat
  exp : Nat
deriving DecidableEq, Repr

/-- Canonical form: drop trailing zeros of the mantissa while the exponent
is positive, so equal values have equal representations. -/
def decCanon : Nat → Nat → Dec
  | m, 0 => ⟨m, 0⟩
  | m, e + 1 => if m % 10 = 0 then decCanon (m / 10) e else ⟨m, e + 1⟩

/-- Value `float(m.group(1))` of `intPart.fracPart`. -/
def decimalVal (intPart fracPart : List Char) : Dec :=
  decCanon (digitsVal (intPart ++ fracPart)) fracPart.length

/-- Multiplier suffix: the ordered alternation `B|M|K|billion|million|thousand`
matched case-insensitively at the current position (first alternative wins,
exactly as in the Python regex — so `million` is captured as `M`). -/
def multAlternatives : List (List Char) :=
  [['B'], ['M'], ['K'],
   ['b', 'i', 'l', 'l', 'i', 'o', 'n'],
   ['m', 'i', 'l', 'l', 'i', 'o', 'n'],
   ['t', 'h', 'o', 'u', 's', 'a', 'n', 'd']]

def findMult (l : List Char) : Option (List Char) :=
  multAlternatives.find? (fun alt => matchCI alt l)

/-- Embedding of `_normalize_money`, applied to the two captured groups (multiplication
by the power-of-ten multiplier acts on the mantissa, re-canonicalized). -/
def normalizeMoney (num : Dec) (mult : Option (List Char)) : Dec :=
  match mult with
  | some ['B'] => decCanon (num.mantissa * 1000000000) num.exp
  | some ['M'] => decCanon (num.mantissa * 1000000) num.exp
  | some ['K'] => decCanon (num.mantissa * 1000) num.exp
  | some ['b', 'i', 'l', 'l', 'i', 'o', 'n'] => decCanon (num.mantissa * 1000000000) num.exp
  | some ['m', 'i', 'l', 'l', 'i', 'o', 'n'] => decCanon (num.mantissa * 1000000) num.exp
  | some ['t', 'h', 'o', 'u', 's', 'a', 'n', 'd'] => decCanon (num.mantissa * 1000) num.exp
  | _ => num

/-- Try `_MONEY_RE` right after a `$`: `\s?` then digits, optional fraction,
`\s?`, optional multiplier. -/
def moneyAt (l : List Char) : Option Dec :=
  let l1 := match l with
            | c :: rest => if isSpaceChar c && isDigitChar (rest.headD 'x') then rest else l
            | [] => l
  let intPart := l1.takeWhile isDigitChar
  if intPart.isEmpty then none
  else
    let r1 := l1.dropWhile isDigitChar
    let (fracPart, r2) :=
      match r1 with
      | '.' :: rest =>
          let fp := rest.takeWhile isDigitChar
          if fp.isEmpty then ([], r1) else (fp, rest.dropWhile isDigitChar)
      | _ => ([], r1)
    let num := decimalVal intPart fracPart
    -- `\s?` then the optional multiplier group; the group is optional, so a
    -- failed multiplier after a consumed space falls back to no multiplier.
    let afterSpace := match r2 with
                      | c :: rest => if isSpaceChar c then some rest else none
                      | [] => none
    match afterSpace with
    | some r3 =>
        -- the multiplier group is optional: after a consumed space, a failed
        -- multiplier leaves group 2 empty (no backtracking of `\s?` needed)
        some (normalizeMoney num (findMult r3))
    | none => some (normalizeMoney num (findMult r2))

/-- Leftmost `_MONEY_RE` match over the text. -/
def moneySearch : List Char → Option Dec
  | [] => none
  | '$' :: rest =>
      (match moneyAt rest with
       | some v => some v
       | none => moneySearch rest)
  | _ :: rest => moneySearch rest

/-- Units of `_SQFT_RE`: `sq\.?\s?ft\.?|square\s+feet|sf`, tried at the
current position (ordered alternation, backtracking over the inner
optionals). -/
def sqftUnitAt (l : List Char) : Bool :=
  -- sq \.? \s? ft \.?   (trailing \.? always succeeds)
  (match l with
   | a :: b :: rest =>
       (a.toLower = 's' && b.toLower = 'q') &&
       (let r1 := match rest with
                  | '.' :: r => r
                  | _ => rest
        let r2 := match r1 with
                  | c :: r => if isSpaceChar c then r else r1
                  | [] => r1
        -- if consuming `.`/space blocks `ft`, the un-consumed alternative
        -- also fails: `f` is neither `.` nor whitespace, so no ambiguity.
        matchCI ['f', 't'] r2)
   | _ => false) ||
  -- square \s+ feet
  (matchCI ['s', 'q', 'u', 'a', 'r', 'e'] l &&
   (let r1 := l.drop 6
    let sp := r1.takeWhile isSpaceChar
    !sp.isEmpty && matchCI ['f', 'e', 'e', 't'] (r1.dropWhile isSpaceChar))) ||
  -- sf
  matchCI ['s', 'f'] l

/-- Try `_SQFT_RE` at a position starting with a digit: `[0-9][0-9,]{2,}`
greedy, `\s?`, unit. -/
def sqftAt (l : List Char) : Option Dec :=
  match l with
  | c :: rest =>
      if !isDigitChar c then none
      else
        let run := rest.takeWhile (fun d => isDigitChar d || d = ',')
        if run.length < 2 then none
        else
          let r1 := rest.dropWhile (fun d => isDigitChar d || d = ',')
          let ok := (match r1 with
                     | d :: r2 => (isSpaceChar d && sqftUnitAt r2) || sqftUnitAt r1
                     | [] => false)
          if ok then some ⟨digitsVal ((c :: run).filter isDigitChar), 0⟩ else none
  | [] => none

def sqftSearch : List Char → Option Dec
  | [] => none
  | l@(_ :: rest) =>
      (match sqftAt l with
       | some v => some v
       | none => sqftSearch rest)

/-- Try `_JOBS_RE` at a position starting with a digit: `[0-9][0-9,]{1,}`
greedy, `\s+`, `jobs|job`. -/
def jobsAt (l : List Char) : Option Dec :=
  match l with
  | c :: rest =>
      if !isDigitChar c then none
      else
        let run := rest.takeWhile (fun d => isDigitChar d || d = ',')
        if run.length < 1 then none
        else
          let r1 := rest.dropWhile (fun d => isDigitChar d || d = ',')
          let sp := r1.takeWhile isSpaceChar
          if sp.isEmpty then none
          else
            let r2 := r1.dropWhile isSpaceChar
            -- `(jobs|job)`: `job` is a prefix of `jobs`, so the alternation
            -- succeeds exactly when `job` matches here.
            if matchCI ['j', 'o', 'b'] r2 then
              some ⟨digitsVal ((c :: run).filter isDigitChar), 0⟩
            else none
  | [] => none

def jobsSearch : List Char → Option Dec
  | [] => none
  | l@(_ :: rest) =>
      (match jobsAt l with
       | some v => some v
       | none => jobsSearch rest)

/-- The `signals` dict: `{"investment_usd": ..., "sqft": ..., "jobs": ...}`,
each value `None` or a number. -/
structure Signals where
  investment_usd : Option Dec
  sqft : Option Dec
  jobs : Option Dec
deriving DecidableEq, Repr

/-- Embedding of `extract_signals(text)`: first match of each regex, `None` when absent. -/
def extract_signals (text : String) : Signals :=
  if text = "" then ⟨none, none, none⟩
  else ⟨moneySearch text.data, sqftSearch text.data, jobsSearch text.data⟩

/-! ## Region / country detection (`detect_region_and_country`, `is_us_or_ca`)

Each name `p` is searched as `re.search(r"\b" + re.escape(p) + r"\b", t,
re.IGNORECASE)`: a case-insensitive literal occurrence with a word-boundary
on each side.  `\b` holds between two positions of different word-char
class (out of range counts as non-word). -/

def wordy : Option Char → Bool
  | none => false
  | some c => isWordChar c

def boundaryB (a b : Option Char) : Bool := wordy a != wordy b

/-- Pattern `\b needle \b` matches at the start of `hay` (with `prev` the character
just before it). -/
def wbMatchAt (needle : List Char) (prev : Option Char) (hay : List Char) : Bool :=
  matchCI needle hay &&
  boundaryB prev hay.head? &&
  boundaryB ((hay.take needle.length).getLast?) ((hay.drop needle.length).head?)

def wbSearchAux (needle : List Char) : Option Char → List Char → Bool
  | _, [] => false
  | prev, h :: hs => wbMatchAt needle prev (h :: hs) || wbSearchAux needle (some h) hs

/-- Truth of `re.search(r"\b<needle>\b", hay, re.IGNORECASE) is not None`. -/
def wbSearch (needle hay : String) : Bool := wbSearchAux needle.data none hay.data

def US_STATES : List String :=
  ["Alabama", "Alaska", "Arizona", "Arkansas", "California", "Colorado", "Connecticut",
   "Delaware", "Florida", "Georgia", "Hawaii", "Idaho", "Illinois", "Indiana", "Iowa",
   "Kansas", "Kentucky", "Louisiana", "Maine", "Maryland", "Massachusetts", "Michigan",
   "Minnesota", "Mississippi", "Missouri", "Montana", "Nebraska", "Nevada",
   "New Hampshire", "New Jersey", "New Mexico", "New York", "North Carolina",
   "North Dakota", "Ohio", "Oklahoma", "Oregon", "Pennsylvania", "Rhode Island",
   "South Carolina", "South Dakota", "Tennessee", "Texas", "Utah", "Vermont",
   "Virginia", "Washington", "West Virginia", "Wisconsin", "Wyoming",
   "District of Columbia"]

def CA_PROVINCES : List String :=
  ["Alberta", "British Columbia", "Manitoba", "New Brunswick", "Newfoundland",
   "Newfoundland and Labrador", "Nova Scotia", "Northwest Territories", "Nunavut",
   "Ontario", "Prince Edward Island", "Quebec", "Saskatchewan", "Yukon"]

/-- Pattern `\bcanada\b|\bontario\b|\bquebec\b` found in `t`. -/
def canadaKw (t : String) : Bool :=
  wbSearch "canada" t || wbSearch "ontario" t || wbSearch "quebec" t

/-- Pattern `\bunited states\b|\busa\b|\bu\.s\.\b` found in `t` (note: the final `\b`
of `u\.s\.` sits after a non-word `.`, so it requires a word character right
after the dot). -/
def usaKw (t : String) : Bool :=
  wbSearch "united states" t || wbSearch "usa" t || wbSearch "u.s." t

/-- Embedding of `detect_region_and_country(title, source_country)`. -/
def detect_region_and_country (title : String) (source_country : Option String) :
    Option String × Option String :=
  match CA_PROVINCES.find? (fun p => wbSearch p title) with
  | some p => (some p, some "CA")
  | none =>
    match US_STATES.find? (fun s => wbSearch s title) with
    | some s => (some s, some "US")
    | none =>
      let sc := pyUpper (source_country.getD "")
      if sc = "US" || sc = "CA" then (none, some sc)
      else if canadaKw title then (none, some "CA")
      else if usaKw title then (none, some "US")
      else (none, none)

/-- A raw GDELT article record; absent keys and `None` values are both
`none` (every `.get` use in the source coalesces the two). -/
structure RawArticle where
  url : Option String
  title : Option String
  domain : Option String
  sourceCountry : Option String
  seendate : Option String
  sourceCollection : Option String
deriving DecidableEq

/-- Embedding of `is_us_or_ca(item)`: note it passes the raw, un-normalized
`sourceCountry`. -/
def is_us_or_ca (a : RawArticle) : Bool :=
  let title := a.title.getD ""
  let rc := detect_region_and_country title a.sourceCountry
  (rc.2 == some "US" || rc.2 == some "CA") || rc.1.isSome

/-! ## `_parse_published`: timestamps

Instants are modelled as integer microseconds since the Unix epoch, UTC.
All `datetime` comparisons the pipeline performs (`dt >= cutoff`, the sort
key) compare aware datetimes, i.e. exactly these integers. -/

def isLeapYear (y : Int) : Bool := y % 4 = 0 && (y % 100 ≠ 0 || y % 400 = 0)

def daysInMonth (y : Int) (m : Nat) : Nat :=
  match m with
  | 1 => 31 | 2 => if isLeapYear y then 29 else 28 | 3 => 31 | 4 => 30
  | 5 => 31 | 6 => 30 | 7 => 31 | 8 => 31 | 9 => 30 | 10 => 31
  | 11 => 30 | 12 => 31 | _ => 0

/-- Days from 1970-01-01 to `y-m-d` in the proleptic Gregorian calendar
(the standard civil-from-days construction; integer division truncates
toward zero on the nonnegative operands it is applied to). -/
def daysFromCivil (y : Int) (m d : Nat) : Int :=
  let y' : Int := if m ≤ 2 then y - 1 else y
  let era : Int := (if 0 ≤ y' then y' else y' - 399) / 400
  let yoe : Int := y' - era * 400
  let doy : Int := (153 * ((m : Int) + (if 2 < m then -3 else 9)) + 2) / 5 + (d : Int) - 1
  let doe : Int := yoe * 365 + yoe / 4 - yoe / 100 + doy
  era * 146097 + doe - 719468

/-- The `datetime(...)` constructor validity (`MINYEAR = 1`, `MAXYEAR = 9999`). -/
def validDate (y : Int) (mo d : Nat) : Bool :=
  1 ≤ y && y ≤ 9999 && 1 ≤ mo && mo ≤ 12 && 1 ≤ d && d ≤ daysInMonth y mo

def validTime (h mi s : Nat) : Bool := h ≤ 23 && mi ≤ 59 && s ≤ 59

/-- Microseconds since epoch of a UTC wall-clock reading. -/
def epochMicro (y : Int) (mo d h mi s micro : Nat) : Int :=
  (daysFromCivil y mo d * 86400 + (h : Int) * 3600 + (mi : Int) * 60 + (s : Int))
    * 1000000 + (micro : Int)

/-- A 1-or-2-digit numeric field of `_strptime` followed by whatever is left;
the surrounding literals make longer digit runs unmatchable. -/
def numField (lo hi : Nat) (l : List Char) : Option (Nat × List Char) :=
  let run := l.takeWhile isDigitChar
  if run.length = 0 || 2 < run.length then none
  else
    let v := digitsVal run
    if lo ≤ v && v ≤ hi then some (v, l.dropWhile isDigitChar) else none

def parseSep (c : Char) : List Char → Option (List Char)
  | x :: r => if x = c then some r else none
  | [] => none

/-- Embedding of `datetime.strptime(s, "%Y-%m-%d %H:%M:%S")`: `%Y` is exactly four
digits, the other fields one or two, separators literal, nothing left over,
and the `datetime` constructor validates the date. -/
def strptime_YmdHMS (l : List Char) : Option Int := Id.run do
  let y4 := l.takeWhile isDigitChar
  if y4.length ≠ 4 then return none
  let y : Int := (digitsVal y4 : Int)
  let some r1 := parseSep '-' (l.dropWhile isDigitChar) | return none
  let some (mo, r2) := numField 1 12 r1 | return none
  let some r3 := parseSep '-' r2 | return none
  let some (d, r4) := numField 1 31 r3 | return none
  let some r5 := parseSep ' ' r4 | return none
  let some (h, r6) := numField 0 23 r5 | return none
  let some r7 := parseSep ':' r6 | return none
  let some (mi, r8) := numField 0 59 r7 | return none
  let some r9 := parseSep ':' r8 | return none
  let some (s, r10) := numField 0 59 r9 | return none
  if !r10.isEmpty then return none
  if !validDate y mo d then return none
  return some (epochMicro y mo d h mi s 0)

def twoDigits : List Char → Option (Nat × List Char)
  | a :: b :: r =>
      if isDigitChar a && isDigitChar b then some (digitsVal [a, b], r) else none
  | _ => none

/-- Python `s.replace("Z", "+00:00")` on the character list. -/
def replaceZchars (l : List Char) : List Char :=
  l.flatMap (fun c => if c = 'Z' then ['+', '0', '0', ':', '0', '0'] else [c])

/-- The `±HH:MM` / `±HH:MM:SS` timezone tail of `fromisoformat`, as signed
offset seconds. -/
def parseIsoOffset (l : List Char) : Option Int := Id.run do
  let sgnRest : Option (Int × List Char) :=
    match l with
    | '+' :: r => some (1, r)
    | '-' :: r => some (-1, r)
    | _ => none
  let some (sgn, r0) := sgnRest | return none
  let some (oh, r1) := twoDigits r0 | return none
  let some r2 := parseSep ':' r1 | return none
  let some (om, r3) := twoDigits r2 | return none
  let osRest : Option (Nat × List Char) :=
    match r3 with
    | ':' :: r => twoDigits r
    | _ => some (0, r3)
  let some (osv, r4) := osRest | return none
  if !r4.isEmpty then return none
  if !(oh ≤ 23 && om ≤ 59 && osv ≤ 59) then return none
  return some (sgn * ((oh : Int) * 3600 + (om : Int) * 60 + (osv : Int)))

/-- Embedding of `datetime.fromisoformat` on the shapes this pipeline can meet once `Z`
has been replaced: extended date `YYYY-MM-DD`, separator `T` (the only
separator `_parse_published` routes here), time `HH[:MM[:SS[.f{1,6}]]]`,
optional `±HH:MM[:SS]` offset.  A naive result is re-tagged UTC, an aware
one converted to UTC, so the value is `wall clock − offset`. -/
def fromisoformatT (l : List Char) : Option Int := Id.run do
  let some (y1, d1) := twoDigits l | return none
  let some (y2, d2) := twoDigits d1 | return none
  let y : Int := (y1 : Int) * 100 + (y2 : Int)
  let some d3 := parseSep '-' d2 | return none
  let some (mo, d4) := twoDigits d3 | return none
  let some d5 := parseSep '-' d4 | return none
  let some (d, rest) := twoDigits d5 | return none
  if !validDate y mo d then return none
  match rest with
  | [] => return some (epochMicro y mo d 0 0 0 0)
  | 'T' :: t0 =>
    let some (h, t1) := twoDigits t0 | return none
    let (mi, t2) := match t1 with
                    | ':' :: r =>
                        (match twoDigits r with
                         | some (v, rr) => (some v, some rr)
                         | none => (none, none))
                    | _ => (some 0, some t1)
    let some miv := mi | return none
    let some t2v := t2 | return none
    let (s, micro, t3) :=
      match t2v with
      | ':' :: r =>
          (match twoDigits r with
           | some (v, rr) =>
               (match rr with
                | '.' :: fr =>
                    let fd := fr.takeWhile isDigitChar
                    if fd.length = 0 || 6 < fd.length then (none, 0, rr)
                    else (some v, digitsVal fd * 10 ^ (6 - fd.length),
                          fr.dropWhile isDigitChar)
                | _ => (some v, 0, rr))
           | none => (none, 0, t2v))
      | _ => (some 0, 0, t2v)
    let some sv := s | return none
    if !validTime h miv sv then return none
    match t3 with
    | [] => return some (epochMicro y mo d h miv sv micro)
    | _ =>
      let some off := parseIsoOffset t3 | return none
      return some (epochMicro y mo d h miv sv micro - off * 1000000)
  | _ => return none

/-- Embedding of `_parse_published(published)` as UTC epoch microseconds. -/
def _parse_published (published : Option String) : Option Int :=
  match published with
  | none => none
  | some p =>
    if p = "" then none
    else
      let s := (pyStrip p).data
      if s.contains 'T' then fromisoformatT (replaceZchars s)
      else strptime_YmdHMS s

/-! ## Topics, items and the merge into the persisted store (`build_items`) -/

structure Topic where
  key : String
  label : String
  query : String
deriving DecidableEq

def TOPICS : List Topic :=
  [⟨"facility_new", "New facility / warehouse / DC",
    "(\"new warehouse\" OR \"new distribution center\" OR \"new distribution centre\" OR \"new DC\" OR \"new fulfillment center\" OR \"new fulfilment centre\" OR \"opens new\" OR \"opening a new\")"⟩,
   ⟨"facility_expansion", "Expansion / modernization",
    "(\"expansion\" OR \"expanded\" OR \"expanding\" OR \"modernization\" OR \"modernisation\" OR \"upgrade\" OR \"capacity increase\" OR \"adds capacity\" OR \"adding capacity\")"⟩,
   ⟨"manufacturing_investment", "Manufacturing investment",
    "(\"manufacturing investment\" OR \"plant investment\" OR \"production expansion\" OR \"new plant\" OR \"new factory\" OR \"manufacturing facility\")"⟩,
   ⟨"warehouse_investment", "Warehouse / logistics investment",
    "(\"warehouse investment\" OR \"distribution investment\" OR \"logistics investment\" OR \"capital investment\" OR capex OR \"investing\" OR \"invests\")"⟩,
   ⟨"real_estate_signal", "Industrial real estate / build-to-suit",
    "(\"build-to-suit\" OR \"industrial lease\" OR \"leased\" OR \"site selection\" OR \"selects site\" OR \"planning commission\" OR rezoning OR permit OR permitting OR \"zoning\")"⟩,
   ⟨"automation_signal", "Automation project signal",
    "(\"AS/RS\" OR ASRS OR \"automated storage\" OR shuttle OR \"goods-to-person\" OR GTP OR AMR OR \"autonomous mobile\" OR robotics OR \"robotic\" OR \"palletizing\" OR palletizing OR sortation OR conveyor OR \"WMS\" OR \"WES\" OR \"WCS\" OR \"warehouse automation\" OR \"distribution automation\")"⟩,
   ⟨"leadership_change", "Leadership change (CEO/VP/Automation)",
    "(\"appointed\" OR \"names\" OR \"named\" OR \"joins\" OR \"hired\" OR \"promoted\" OR \"resigns\" OR \"steps down\") AND (CEO OR COO OR CFO OR \"Chief Executive\" OR \"VP\" OR \"Vice President\" OR \"Head of\" OR Director) AND (\"supply chain\" OR operations OR logistics OR automation OR engineering)"⟩,
   ⟨"revenue_update", "Revenue / earnings update",
    "(\"revenue\" OR \"net sales\" OR \"earnings\" OR \"guidance\" OR \"quarter\" OR \"Q1\" OR \"Q2\" OR \"Q3\" OR \"Q4\") AND (\"supply chain\" OR \"distribution\" OR \"capacity\" OR \"capex\" OR \"investment\")"⟩,
   ⟨"risk_urgency", "Risk / urgency (closure, labor, disruption)",
    "(\"layoffs\" OR \"closure\" OR \"shutting down\" OR \"consolidation\" OR strike OR union OR \"labor shortage\" OR \"labour shortage\" OR fire OR recall)"⟩]

/-- A stored item (one dict of the persisted `items` list).  `topics` and
`topic_labels` default to `[]` exactly as the source's `or []` reads do. -/
structure Item where
  id : Option String
  title : Option String
  url : Option String
  source : Option String
  source_country : Option String
  published : Option String
  topics : List String
  topic_labels : List String
  region : Option String
  country : Option String
  signals : Option Signals
deriving DecidableEq

/-- Python truthiness of an optional string (`None` and `""` are falsy). -/
def truthyS : Option String → Bool
  | none => false
  | some s => s ≠ ""

/-- Step of `sorted(set(a) | set(b))`: insert into an ascending duplicate-free list. -/
def insSorted (x : String) : List String → List String
  | [] => [x]
  | y :: ys =>
      if strLt x y then x :: y :: ys
      else if x = y then y :: ys
      else y :: insSorted x ys

def sortDedup (l : List String) : List String := l.foldr insSorted []

def pyUnion (a b : List String) : List String := sortDedup (a ++ b)

/-- Sortedness of the canonical lists, with respect to `strLt`. -/
def SortedS (l : List String) : Prop := l.Sorted (fun a b => strLt a b = true)

/-- Association list standing for a Python dict (unique keys, insertion
order); updating a present key keeps its position. -/
def updAssoc (k : String) (f : Item → Item) : List (String × Item) → List (String × Item)
  | [] => []
  | (k', v) :: rest => if k' = k then (k', f v) :: rest else (k', v) :: updAssoc k f rest

def keysOf (s : List (String × Item)) : List String := s.map Prod.fst

/-- One scalar field of the fill-forward loop:
`if not store[mid].get(k) and it.get(k): store[mid][k] = it[k]`. -/
def fillField (old new : Option String) : Option String :=
  if !truthyS old && truthyS new then new else old

/-- Same rule for the `signals` value (a dict is truthy iff present —
`extract_signals` always returns all three keys). -/
def fillSignals (old new : Option Signals) : Option Signals :=
  if old.isNone && new.isSome then new else old

/-- The update applied to an already-present store entry `old` when the run
re-sees the story as `it`: topic union plus the fill-forward loop over
`["title", "source", "source_country", "published", "region", "country",
"signals"]` (`id` and `url` are never touched). -/
def mergeUpd (it : Item) (old : Item) : Item :=
  { old with
    topics := pyUnion old.topics it.topics
    topic_labels := pyUnion old.topic_labels it.topic_labels
    title := fillField old.title it.title
    source := fillField old.source it.source
    source_country := fillField old.source_country it.source_country
    published := fillField old.published it.published
    region := fillField old.region it.region
    country := fillField old.country it.country
    signals := fillSignals old.signals it.signals }

/-- The body of the per-item store merge (lines "if mid in store" /
"else insert" of `build_items`). -/
def mergeStoreOne (s : List (String × Item)) (mid : String) (it : Item) :
    List (String × Item) :=
  match s.lookup mid with
  | some _ => updAssoc mid (mergeUpd it) s
  | none => s ++ [(mid, it)]

/-- The within-run merge of `items` by id ("Merge same URL across topics"):
only the topic fields are unioned there. -/
def upsertMerged (m : List (String × Item)) (it : Item) : List (String × Item) :=
  let mid := it.id.getD ""
  match m.lookup mid with
  | none => m ++ [(mid, it)]
  | some _ =>
      updAssoc mid (fun old =>
        { old with
          topics := pyUnion old.topics it.topics
          topic_labels := pyUnion old.topic_labels it.topic_labels }) m

def mergedPhase (items : List Item) : List (String × Item) :=
  items.foldl upsertMerged []

/-- Seeding the store dict from the existing items (skips entries without a
truthy `id`; a repeated id keeps the first position, last value). -/
def upsertStore (s : List (String × Item)) (k : String) (it : Item) :
    List (String × Item) :=
  match s.lookup k with
  | some _ => updAssoc k (fun _ => it) s
  | none => s ++ [(k, it)]

def storeOf (existing : List Item) : List (String × Item) :=
  existing.foldl
    (fun s it =>
      match it.id with
      | none => s
      | some i => if i = "" then s else upsertStore s i it)
    []

/-- The retention predicate: parsed `published` must be within 30 days of
`now`, items without a parseable timestamp are kept. -/
def trimKeep (now : Int) (it : Item) : Bool :=
  match _parse_published it.published with
  | none => true
  | some dt => now - 2592000000000 ≤ dt

def pruneItems (now : Int) (items : List Item) : List Item :=
  items.filter (trimKeep now)

/-- Sort key: parsed publish time, epoch (`datetime(1970,1,1)`) when
unparseable. -/
def sortKey (it : Item) : Int := (_parse_published it.published).getD 0

/-- Python `list.sort(key=..., reverse=True)`: stable, descending. -/
def insertDesc (x : Item) : List Item → List Item
  | [] => [x]
  | y :: ys => if sortKey y < sortKey x then x :: y :: ys else y :: insertDesc x ys

def sortPublishedDesc (items : List Item) : List Item :=
  items.foldl (fun acc x => insertDesc x acc) []

/-- One fetched article turned into a fresh item (the body of the inner
loop over `arts`), given the already-seen URL set. -/
def articleStep (topic : Topic) (st : List String × List Item) (a : RawArticle) :
    List String × List Item :=
  let (seen, acc) := st
  let url := pyStrip (a.url.getD "")
  let title := pyStrip (a.title.getD "")
  if url = "" || title = "" then st
  else if seen.contains url then st
  else if !is_us_or_ca a then st
  else
    let domain := pyStrip (a.domain.getD "")
    let source_country :=
      let sc := pyUpper (pyStrip (a.sourceCountry.getD ""))
      if sc = "" then none else some sc
    let published :=
      let p := pyStrip (a.seendate.getD "")
      if p = "" then none else some p
    let rc := detect_region_and_country title source_country
    let item : Item :=
      { id := some (_stable_id url)
        title := some title
        url := some url
        source := if domain ≠ "" then some domain
                  else if truthyS a.sourceCollection then a.sourceCollection
                  else some "(unknown)"
        source_country := source_country
        published := published
        topics := [topic.key]
        topic_labels := [topic.label]
        region := rc.1
        country := rc.2
        signals := some (extract_signals title) }
    (url :: seen, acc ++ [item])

/-- The fetch loop over `TOPICS`: a topic whose fetch raised is skipped
(`except ... continue`), modelled by `fetch t = none`. -/
def processArticles (fetch : Topic → Option (List RawArticle))
    (seen0 : List String) : List Item :=
  (TOPICS.foldl
    (fun st topic =>
      match fetch topic with
      | none => st
      | some arts => arts.foldl (articleStep topic) st)
    (seen0, [])).2

/-- URLs seeded into `seen_urls` from the existing store. -/
def seedSeen (existing : List Item) : List String :=
  (existing.map (fun it => it.url.getD "")).filter (fun u => u ≠ "")

/-- Embedding of `build_items(now)` with the network abstracted as `fetch`: returns the
items list that `main` always persists via `write_json`. -/
def build_items (now : Int) (existing : List Item)
    (fetch : Topic → Option (List RawArticle)) : List Item :=
  let items := processArticles fetch (seedSeen existing)
  let merged := mergedPhase items
  let store := merged.foldl (fun s kv => mergeStoreOne s kv.1 kv.2) (storeOf existing)
  sortPublishedDesc (pruneItems now (store.map Prod.snd))

/-! ## The HTTP layer of `gdelt_fetch` -/

structure HttpResponse where
  status : Nat
  retryAfter : Option Nat
  articles : Option (List RawArticle)
deriving DecidableEq

/-- Embedding of `gdelt_fetch` after the single HTTP exchange it performs:
`r.raise_for_status()` raises on every 4xx/5xx status — there is no retry
loop, no backoff computation and no read of `Retry-After` anywhere in the
function — otherwise the `articles` of the parsed body (`or []`). -/
def gdelt_fetch (r : HttpResponse) : Except Nat (List RawArticle) :=
  if 400 ≤ r.status && r.status < 600 then Except.error r.status
  else Except.ok (r.articles.getD [])

/-! ## Atomic relevance predicates (for stating the precedence flattening) -/

def provinceHit (t : String) : Bool := CA_PROVINCES.any (fun p => wbSearch p t)

def stateHit (t : String) : Bool := US_STATES.any (fun s => wbSearch s t)

def sourceCountryUSCA (sc : Option String) : Bool :=
  pyUpper (sc.getD "") = "US" || pyUpper (sc.getD "") = "CA"

/-- Characters following the first `://`, if any. -/
def afterSchemeChars : List Char → List Char
  | ':' :: '/' :: '/' :: rest => rest
  | _ :: rest => afterSchemeChars rest
  | [] => []

/-- Host part of a URL: what sits between `://` and the next `/`. -/
def urlHost (u : String) : String :=
  String.mk ((afterSchemeChars u.data).takeWhile (fun c => c ≠ '/'))

/-- Does the host end in `.ca`? -/
def hostEndsDotCa (h : String) : Bool :=
  h.data.reverse.take 3 == ['a', 'c', '.']

/-- Modelled from the spec: the Relevance Filter precedence of its section
4.3, first match wins — (1) `sourceCountry` in {US, CA}; (2) URL host ends
in the Canadian TLD pattern `.ca`; (3) Canadian-province or general-Canada
keyword in the text; (4) US-state or general-USA keyword; (5) otherwise not
relevant.  Clause (2), the URL-host rule, has no counterpart anywhere in
`src/scripts/generate.py`; this definition exists only to compare the
spec's filter with the implemented one. -/
def spec_isRelevant (a : RawArticle) : Bool :=
  let t := a.title.getD ""
  if sourceCountryUSCA a.sourceCountry then true
  else if hostEndsDotCa (urlHost (a.url.getD "")) then true
  else if provinceHit t || canadaKw t then true
  else if stateHit t || usaKw t then true
  else false

/-! ## Concrete inputs used by counterexamples and witnesses -/

/-- An article from a `.ca` host whose text and metadata carry no
US/Canada marker at all. -/
def caHostArticle : RawArticle :=
  { url := some "https://x.ca/a", title := some "hello world", domain := some "x.ca",
    sourceCountry := none, seendate := none, sourceCollection := none }

/-- The spec's same-URL scenario: one story reached through two topic
queries. -/
def ontarioArticle : RawArticle :=
  { url := some "https://x.ca/a", title := some "Ontario warehouse expansion",
    domain := some "x.ca", sourceCountry := some "CA", seendate := none,
    sourceCollection := none }

def fetchTwoTopics : Topic → Option (List RawArticle) := fun t =>
  if t.key = "facility_new" then some [ontarioArticle]
  else if t.key = "automation_signal" then some [ontarioArticle]
  else some []

def fetchOneArticle : Topic → Option (List RawArticle) := fun t =>
  if t.key = "facility_new" then some [ontarioArticle] else some []

/-- Instant 2026-01-01T00:00:00Z in epoch microseconds. -/
def now2026 : Int := 1767225600000000

/-- A stored item published far outside the 30-day retention window. -/
def staleItem : Item :=
  { id := some "deadbeef00000000", title := some "Old news",
    url := some "https://old.example/a", source := some "old.example",
    source_country := none, published := some "2020-01-01 00:00:00",
    topics := ["facility_new"], topic_labels := ["New facility / warehouse / DC"],
    region := none, country := some "US", signals := none }

/-- An item whose `topics` list is not in sorted-set normal form. -/
def unsortedItem : Item :=
  { staleItem with topics := ["b", "a"], published := none }

/-- The same item in sorted-set normal form. -/
def sortedItem : Item :=
  { staleItem with topics := ["a", "b"], published := none }

/-- An item with an unparseable `published` string. -/
def garbageTsItem : Item := { staleItem with published := some "garbage" }

def emptyItem : Item :=
  { id := none, title := none, url := none, source := none, source_country := none,
    published := none, topics := [], topic_labels := [], region := none,
    country := none, signals := none }

/-- What every freshly built item of the fetch loop satisfies: a non-empty
stripped title and url, and an assigned id. -/
def NewItemOK (it : Item) : Prop :=
  truthyS it.title = true ∧ truthyS it.url = true ∧ it.id.isSome = true

/-! ## Theory of `sorted(set(a) | set(b))` -/

theorem char_toNat_inj {a b : Char} (h : a.toNat = b.toNat) : a = b := by
  have ha := Char.ofNat_toNat a
  have hb := Char.ofNat_toNat b
  rw [← ha, ← hb, h]

theorem ltCP_irrefl (l : List Char) : ltCP l l = false := by
  induction l with
  | nil => rfl
  | cons a as ih => simp [ltCP, ih]

theorem ltCP_trans {l1 l2 l3 : List Char} (h1 : ltCP l1 l2 = true)
    (h2 : ltCP l2 l3 = true) : ltCP l1 l3 = true := by
  induction l1 generalizing l2 l3 with
  | nil =>
      cases l2 with
      | nil => exact absurd h1 (by simp [ltCP])
      | cons b bs =>
          cases l3 with
          | nil => exact absurd h2 (by simp [ltCP])
          | cons c cs => rfl
  | cons a as ih =>
      cases l2 with
      | nil => exact absurd h1 (by simp [ltCP])
      | cons b bs =>
          cases l3 with
          | nil => exact absurd h2 (by simp [ltCP])
          | cons c cs =>
              rw [ltCP] at h1 h2 ⊢
              split_ifs at h1 h2 ⊢ <;>
                first
                | rfl
                | exact Bool.noConfusion h1
                | exact Bool.noConfusion h2
                | exact ih h1 h2
                | omega

theorem ltCP_conn {l1 l2 : List Char} (h1 : ltCP l1 l2 = false)
    (h2 : ltCP l2 l1 = false) : l1 = l2 := by
  induction l1 generalizing l2 with
  | nil =>
      cases l2 with
      | nil => rfl
      | cons b bs => exact absurd h1 (by simp [ltCP])
  | cons a as ih =>
      cases l2 with
      | nil => exact absurd h2 (by simp [ltCP])
      | cons b bs =>
          rw [ltCP] at h1 h2
          by_cases hab : a.toNat < b.toNat
          · exact absurd h1 (by simp [hab])
          · by_cases hba : b.toNat < a.toNat
            · exact absurd h2 (by simp [hba])
            · rw [if_neg hab, if_neg hba] at h1
              rw [if_neg hba, if_neg hab] at h2
              have heq : a = b := char_toNat_inj (by omega)
              rw [heq, ih h1 h2]

theorem strLt_irrefl (a : String) : strLt a a = false := ltCP_irrefl _

theorem strLt_trans {a b c : String} (h1 : strLt a b = true)
    (h2 : strLt b c = true) : strLt a c = true := ltCP_trans h1 h2

theorem strLt_conn {a b : String} (h1 : strLt a b = false)
    (h2 : strLt b a = false) : a = b := by
  have h := ltCP_conn h1 h2
  cases a with
  | mk la =>
      cases b with
      | mk lb =>
          simp only at h
          rw [h]

/-- From failure of `strLt` both ways plus disequality being impossible:
if `strLt x z` fails and `x ≠ z` then `strLt z x` holds. -/
theorem strLt_flip {x z : String} (h1 : ¬strLt x z = true) (h2 : x ≠ z) :
    strLt z x = true := by
  cases hzx : strLt z x with
  | true => rfl
  | false =>
      have hxz : strLt x z = false := by
        cases hxz : strLt x z with
        | true => exact absurd hxz h1
        | false => rfl
      exact absurd (strLt_conn hxz hzx) h2

theorem insSorted_lt (x z : String) (zs : List String) (h1 : strLt x z = true) :
    insSorted x (z :: zs) = x :: z :: zs := by
  simp [insSorted, h1]

theorem insSorted_eq (x z : String) (zs : List String) (h2 : x = z) :
    insSorted x (z :: zs) = z :: zs := by
  subst h2
  simp [insSorted, strLt_irrefl]

theorem insSorted_gt (x z : String) (zs : List String) (h1 : ¬strLt x z = true)
    (h2 : ¬x = z) : insSorted x (z :: zs) = z :: insSorted x zs := by
  simp [insSorted, h1, h2]

theorem mem_insSorted (x y : String) (l : List String) :
    y ∈ insSorted x l ↔ y = x ∨ y ∈ l := by
  induction l with
  | nil => simp [insSorted]
  | cons z zs ih =>
      by_cases h1 : strLt x z = true
      · rw [insSorted_lt x z zs h1]
        simp [List.mem_cons]
      · by_cases h2 : x = z
        · rw [insSorted_eq x z zs h2]
          subst h2
          simp only [List.mem_cons]
          tauto
        · rw [insSorted_gt x z zs h1 h2]
          simp only [List.mem_cons, ih]
          tauto

theorem sorted_insSorted (x : String) (l : List String)
    (h : SortedS l) : SortedS (insSorted x l) := by
  induction l with
  | nil => simp [insSorted, SortedS]
  | cons z zs ih =>
      rw [SortedS, List.sorted_cons] at h
      by_cases h1 : strLt x z = true
      · rw [SortedS, insSorted_lt x z zs h1, List.sorted_cons, List.sorted_cons]
        refine ⟨?_, h⟩
        intro b hb
        rcases List.mem_cons.mp hb with rfl | hb
        · exact h1
        · exact strLt_trans h1 (h.1 b hb)
      · by_cases h2 : x = z
        · rw [SortedS, insSorted_eq x z zs h2, List.sorted_cons]
          exact h
        · rw [SortedS, insSorted_gt x z zs h1 h2, List.sorted_cons]
          refine ⟨?_, ih h.2⟩
          intro b hb
          rcases (mem_insSorted x b zs).mp hb with rfl | hb
          · exact strLt_flip h1 h2
          · exact h.1 b hb

theorem sortDedup_cons (z : String) (zs : List String) :
    sortDedup (z :: zs) = insSorted z (sortDedup zs) := rfl

theorem mem_sortDedup (y : String) (l : List String) :
    y ∈ sortDedup l ↔ y ∈ l := by
  induction l with
  | nil => simp [sortDedup]
  | cons z zs ih =>
      rw [sortDedup_cons, mem_insSorted, ih, List.mem_cons]

theorem sorted_sortDedup (l : List String) : SortedS (sortDedup l) := by
  induction l with
  | nil => simp [sortDedup, SortedS]
  | cons z zs ih =>
      rw [sortDedup_cons]
      exact sorted_insSorted z _ ih

theorem mem_pyUnion (y : String) (a b : List String) :
    y ∈ pyUnion a b ↔ y ∈ a ∨ y ∈ b := by
  rw [pyUnion, mem_sortDedup, List.mem_append]

theorem sorted_pyUnion (a b : List String) : SortedS (pyUnion a b) :=
  sorted_sortDedup _

/-- Two strictly sorted lists with the same members are equal. -/
theorem sorted_lt_ext (l1 : List String) : ∀ l2 : List String,
    SortedS l1 → SortedS l2 → (∀ x, x ∈ l1 ↔ x ∈ l2) → l1 = l2 := by
  induction l1 with
  | nil =>
      intro l2 _ _ hm
      cases l2 with
      | nil => rfl
      | cons b t2 => exact absurd ((hm b).mpr (List.mem_cons_self b t2)) (by simp)
  | cons a t1 ih =>
      intro l2 h1 h2 hm
      cases l2 with
      | nil => exact absurd ((hm a).mp (List.mem_cons_self a t1)) (by simp)
      | cons b t2 =>
          rw [SortedS, List.sorted_cons] at h1 h2
          have hab : a = b := by
            rcases List.mem_cons.mp ((hm a).mp (List.mem_cons_self a t1)) with h | h
            · exact h
            · rcases List.mem_cons.mp ((hm b).mpr (List.mem_cons_self b t2)) with h' | h'
              · exact h'.symm
              · exact absurd (strLt_trans (h2.1 a h) (h1.1 b h'))
                  (by simp [strLt_irrefl])
          subst hab
          have ht : ∀ x, x ∈ t1 ↔ x ∈ t2 := by
            intro x
            constructor
            · intro hx
              rcases List.mem_cons.mp ((hm x).mp (List.mem_cons_of_mem a hx)) with h | h
              · exact absurd (h ▸ h1.1 x hx) (by simp [strLt_irrefl])
              · exact h
            · intro hx
              rcases List.mem_cons.mp ((hm x).mpr (List.mem_cons_of_mem a hx)) with h | h
              · exact absurd (h ▸ h2.1 x hx) (by simp [strLt_irrefl])
              · exact h
          rw [ih t2 h1.2 h2.2 ht]

theorem pyUnion_idem_right (a b : List String) :
    pyUnion (pyUnion a b) b = pyUnion a b := by
  refine sorted_lt_ext _ _ (sorted_pyUnion _ _) (sorted_pyUnion _ _) ?_
  intro x
  rw [mem_pyUnion, mem_pyUnion]
  tauto


/-! ## Association-list (dict) lemmas -/

theorem lookup_append_single (s : List (String × Item)) (k : String) (v : Item)
    (h : s.lookup k = none) : (s ++ [(k, v)]).lookup k = some v := by
  induction s with
  | nil => simp [List.lookup]
  | cons e rest ih =>
      rw [List.lookup] at h
      rw [List.cons_append, List.lookup]
      cases hk : (k == e.1) with
      | true => rw [hk] at h; exact absurd h (by simp)
      | false => rw [hk] at h; exact ih h

theorem updAssoc_append_single (s : List (String × Item)) (k : String) (v : Item)
    (f : Item → Item) (h : s.lookup k = none) :
    updAssoc k f (s ++ [(k, v)]) = s ++ [(k, f v)] := by
  induction s with
  | nil => simp [updAssoc]
  | cons e rest ih =>
      rw [List.lookup] at h
      cases hk : (k == e.1) with
      | true => rw [hk] at h; exact absurd h (by simp)
      | false =>
          rw [hk] at h
          have hne : e.1 ≠ k := by
            intro he
            rw [he] at hk
            simp at hk
          rw [List.cons_append, updAssoc, if_neg hne, ih h]
          rfl

theorem lookup_updAssoc (s : List (String × Item)) (k : String) (v : Item)
    (f : Item → Item) (h : s.lookup k = some v) :
    (updAssoc k f s).lookup k = some (f v) := by
  induction s with
  | nil => simp [List.lookup] at h
  | cons e rest ih =>
      rw [List.lookup] at h
      by_cases he : e.1 = k
      · have h2 : e.2 = v := by
          rw [show (k == e.1) = true by simp [he]] at h
          simpa using h
        rw [updAssoc, if_pos he, List.lookup, show (k == e.1) = true by simp [he], h2]
      · rw [updAssoc, if_neg he]
        rw [show (k == e.1) = false by simp [Ne.symm he]] at h
        rw [List.lookup, show (k == e.1) = false by simp [Ne.symm he]]
        exact ih h

theorem updAssoc_updAssoc (s : List (String × Item)) (k : String)
    (f g : Item → Item) :
    updAssoc k g (updAssoc k f s) = updAssoc k (fun v => g (f v)) s := by
  induction s with
  | nil => simp [updAssoc]
  | cons e rest ih =>
      by_cases he : e.1 = k
      · rw [updAssoc, if_pos he, updAssoc, if_pos he, updAssoc, if_pos he]
      · rw [updAssoc, if_neg he, updAssoc, if_neg he, updAssoc, if_neg he, ih]

theorem updAssoc_congr (s : List (String × Item)) (k : String)
    (f g : Item → Item) (h : ∀ v, f v = g v) :
    updAssoc k f s = updAssoc k g s := by
  induction s with
  | nil => rfl
  | cons e rest ih =>
      by_cases he : e.1 = k
      · rw [updAssoc, if_pos he, updAssoc, if_pos he, h]
      · rw [updAssoc, if_neg he, updAssoc, if_neg he, ih]

theorem mem_updAssoc (s : List (String × Item)) (k : String) (f : Item → Item)
    (e : String × Item) (h : e ∈ updAssoc k f s) :
    e ∈ s ∨ ∃ v, (e.1, v) ∈ s ∧ e = (k, f v) := by
  induction s with
  | nil => simp [updAssoc] at h
  | cons e0 rest ih =>
      by_cases he : e0.1 = k
      · rw [updAssoc, if_pos he] at h
        rcases List.mem_cons.mp h with rfl | h
        · right
          refine ⟨e0.2, ?_, ?_⟩
          · exact List.mem_cons_self _ _
          · rw [he]
        · left
          exact List.mem_cons_of_mem _ h
      · rw [updAssoc, if_neg he] at h
        rcases List.mem_cons.mp h with rfl | h
        · left
          exact List.mem_cons_self _ _
        · rcases ih h with h' | ⟨v, hv, hev⟩
          · exact Or.inl (List.mem_cons_of_mem _ h')
          · exact Or.inr ⟨v, List.mem_cons_of_mem _ hv, hev⟩

/-! ## Fill-forward lemmas -/

theorem fillField_self (x : Option String) : fillField x x = x := by
  rw [fillField]
  by_cases h : truthyS x
  · simp [h]
  · simp [h]

theorem fillField_fillField (o n : Option String) :
    fillField (fillField o n) n = fillField o n := by
  rw [fillField, fillField]
  by_cases ho : truthyS o
  · simp [ho, fillField, ho]
  · by_cases hn : truthyS n
    · simp [ho, hn, fillField, hn]
    · simp [ho, hn, fillField, ho, hn]

theorem fillSignals_self (x : Option Signals) : fillSignals x x = x := by
  cases x <;> simp [fillSignals]

theorem fillSignals_fillSignals (o n : Option Signals) :
    fillSignals (fillSignals o n) n = fillSignals o n := by
  cases o <;> cases n <;> simp [fillSignals]

theorem truthyS_fillField (o n : Option String) (h : truthyS o = true) :
    fillField o n = o := by
  simp [fillField, h]

theorem mergeUpd_mergeUpd (it v : Item) : mergeUpd it (mergeUpd it v) = mergeUpd it v := by
  rw [mergeUpd, mergeUpd]
  simp only [pyUnion_idem_right, fillField_fillField, fillSignals_fillSignals]

theorem mergeUpd_fixed (it : Item) (ht : pyUnion it.topics it.topics = it.topics)
    (hl : pyUnion it.topic_labels it.topic_labels = it.topic_labels) :
    mergeUpd it it = it := by
  rw [mergeUpd]
  simp only [ht, hl, fillField_self, fillSignals_self]

/-! ## Digest length and alphabet lemmas -/

theorem length_toBE (k n : Nat) : (toBE k n).length = k := by
  simp [toBE]

theorem length_sha256 (msg : List Nat) : (sha256 msg).length = 32 := by
  simp [sha256, length_toBE]

theorem hexDigit_mem (n : Nat) : hexDigit n ∈ hexAlphabet := by
  rw [hexDigit]
  set m := n % 16 with hm
  have h : m < 16 := Nat.mod_lt _ (by norm_num)
  interval_cases m <;> decide

theorem mem_bytesToHex (bs : List Nat) (c : Char) (h : c ∈ bytesToHex bs) :
    c ∈ hexAlphabet := by
  induction bs with
  | nil => simp [bytesToHex] at h
  | cons b t ih =>
      rw [bytesToHex] at h
      rcases List.mem_cons.mp h with rfl | h
      · exact hexDigit_mem _
      · rcases List.mem_cons.mp h with rfl | h
        · exact hexDigit_mem _
        · exact ih h

theorem length_bytesToHex (bs : List Nat) :
    (bytesToHex bs).length = 2 * bs.length := by
  induction bs with
  | nil => simp [bytesToHex]
  | cons b t ih =>
      rw [bytesToHex, List.length_cons, List.length_cons, ih, List.length_cons]
      omega

set_option maxRecDepth 100000 in
/-- The SHA-256 of `"abc"` agrees with the published NIST test vector,
pinning the embedding of `hashlib.sha256` to the real function. -/
theorem sha256_nist_abc :
    String.mk (bytesToHex (sha256 (utf8 "abc"))) =
      "ba7816bf8f01cfea414140de5dae2223b00361a396177a9cb410ff61f20015ad" := by
  decide

/-! ## Claim theorems -/

set_option maxRecDepth 100000 in
/-- C1: `_stable_id` is a pure deterministic function of the exact URL
string, producing the first 16 hex characters of `sha256(url)` — 16
characters, all from the hex alphabet — with no normalization: case, a
trailing slash, and query parameters all change the id. -/
theorem C1_stable_id_deterministic :
    (∀ u v : String, u = v → _stable_id u = _stable_id v) ∧
    (∀ u : String, (_stable_id u).length = 16) ∧
    (∀ u : String, ∀ c ∈ (_stable_id u).data, c ∈ hexAlphabet) ∧
    _stable_id "http://A/" ≠ _stable_id "http://a/" ∧
    _stable_id "http://a/" ≠ _stable_id "http://a" ∧
    _stable_id "http://a?x=1" ≠ _stable_id "http://a" := by
  refine ⟨fun u v h => h ▸ rfl, ?_, ?_, by decide, by decide, by decide⟩
  · intro u
    rw [_stable_id]
    show (List.take 16 (bytesToHex (sha256 (utf8 u)))).length = 16
    rw [List.length_take, length_bytesToHex, length_sha256]
    decide
  · intro u c hc
    rw [_stable_id] at hc
    exact mem_bytesToHex _ _ (List.take_subset _ _ hc)

/-- C1 witness: the determinism clause applied at a concrete URL. -/
theorem C1_stable_id_deterministic_witness :
    _stable_id "https://x.ca/a" = _stable_id "https://x.ca/a" :=
  C1_stable_id_deterministic.1 _ _ rfl

/-- C2 (amended): merging the same article into the store twice is the same
as merging it once, provided the article's `topics` and `topic_labels`
lists are in sorted-set normal form — as every item the pipeline feeds into
the store merge is (a fresh item carries a singleton, a within-run-merged
item a `sorted(set(...))` union).  Without that proviso a second merge
re-normalizes the stored list (see the counterexample). -/
theorem C2_merge_idempotent (s : List (String × Item)) (mid : String) (it : Item)
    (ht : pyUnion it.topics it.topics = it.topics)
    (hl : pyUnion it.topic_labels it.topic_labels = it.topic_labels) :
    mergeStoreOne (mergeStoreOne s mid it) mid it = mergeStoreOne s mid it := by
  cases hs : s.lookup mid with
  | none =>
      simp only [mergeStoreOne, hs]
      rw [lookup_append_single s mid it hs, updAssoc_append_single s mid it _ hs,
        mergeUpd_fixed it ht hl]
  | some v =>
      simp only [mergeStoreOne, hs]
      rw [lookup_updAssoc s mid v _ hs, updAssoc_updAssoc]
      exact updAssoc_congr _ _ _ _ (fun w => mergeUpd_mergeUpd it w)

/-- C2 counterexample: over arbitrary article/store pairs the claim fails —
inserting an article whose `topics` list is `["b", "a"]` and re-merging it
rewrites the stored list to `["a", "b"]`, so the twice-merged store differs
from the once-merged one. -/
theorem C2_merge_idempotent_cex :
    mergeStoreOne (mergeStoreOne [] "i" unsortedItem) "i" unsortedItem ≠
      mergeStoreOne [] "i" unsortedItem := by
  decide

/-- C2 witness: the amended theorem applied to a concrete normal-form
article. -/
theorem C2_merge_idempotent_witness :
    mergeStoreOne (mergeStoreOne [] "i" sortedItem) "i" sortedItem =
      mergeStoreOne [] "i" sortedItem :=
  C2_merge_idempotent [] "i" sortedItem (by decide) (by decide)

/-- C5: pruning is fail-open — an item whose `published` is absent or fails
to parse satisfies the retention predicate for every `now`, hence survives
the prune filter wherever it appears. -/
theorem C5_prune_fail_open (it : Item) (now : Int)
    (h : it.published = none ∨ _parse_published it.published = none) :
    trimKeep now it = true ∧ ∀ l : List Item, it ∈ l → it ∈ pruneItems now l := by
  have hp : _parse_published it.published = none := by
    rcases h with h | h
    · rw [h]
      rfl
    · exact h
  refine ⟨by simp [trimKeep, hp], ?_⟩
  intro l hl
  rw [pruneItems]
  exact List.mem_filter.mpr ⟨hl, by simp [trimKeep, hp]⟩

/-- C5 witness: an item with an unparseable timestamp survives a concrete
prune. -/
theorem C5_prune_fail_open_witness :
    garbageTsItem ∈ pruneItems 0 [garbageTsItem] :=
  (C5_prune_fail_open garbageTsItem 0 (Or.inr (by decide))).2 [garbageTsItem]
    (by decide)

set_option maxRecDepth 1000000 in
/-- C3 (code behavior at the claim's scenario): when the same URL arrives
under `facility_new` and then under `automation_signal` in one run, the
store does end up with exactly one item for that URL, but its `topics` are
`["facility_new"]` only — the second article is discarded by the
`url in seen_urls` check before any topic merging can happen, so the
topics union the claim (and the source's own merge-phase comments)
describe never occurs. -/
theorem C3_same_url_two_topics_eval :
    (build_items now2026 [] fetchTwoTopics).map (fun it => (it.url, it.topics)) =
      [(some "https://x.ca/a", ["facility_new"])] ∧
    (build_items now2026 [] fetchTwoTopics).length = 1 := by
  constructor
  · decide
  · decide

set_option maxRecDepth 1000000 in
/-- C4 counterexample: a store holding one item published outside the
30-day window is rewritten to an empty store by a run in which every fetch
returned zero items — not left with "exactly the same N items, unchanged". -/
theorem C4_preserve_on_empty_cex :
    ([staleItem] : List Item).length = 1 ∧
    build_items now2026 [staleItem] (fun _ => some []) = [] := by
  constructor
  · rfl
  · decide

/-- Auxiliary: a run in which every topic's fetch failed or returned no
articles builds no items. -/
theorem processArticles_empty (fetch : Topic → Option (List RawArticle))
    (h : ∀ t ∈ TOPICS, fetch t = none ∨ fetch t = some []) (seen0 : List String) :
    processArticles fetch seen0 = [] := by
  rw [processArticles]
  have H : ∀ (ts : List Topic) (st : List String × List Item),
      (∀ t ∈ ts, fetch t = none ∨ fetch t = some []) →
      (ts.foldl
        (fun st topic =>
          match fetch topic with
          | none => st
          | some arts => arts.foldl (articleStep topic) st) st) = st := by
    intro ts
    induction ts with
    | nil => intro st _; rfl
    | cons t ts ih =>
        intro st hts
        rw [List.foldl_cons]
        rcases hts t (List.mem_cons_self t ts) with h' | h' <;>
          · rw [h']
            exact ih st (fun t' ht' => hts t' (List.mem_cons_of_mem _ ht'))
  rw [H TOPICS _ h]

/-- C4 (amended): a run in which every upstream fetch returns zero usable
items rewrites the store as exactly the existing entries (dicts with a
truthy id, deduplicated by id), passed through the 30-day retention prune
and the newest-first sort — no item is added or modified, but out-of-window
items are dropped, so the store is not in general left with the same N
items. -/
theorem C4_preserve_on_empty_amended (now : Int) (existing : List Item)
    (fetch : Topic → Option (List RawArticle))
    (h : ∀ t ∈ TOPICS, fetch t = none ∨ fetch t = some []) :
    build_items now existing fetch =
      sortPublishedDesc (pruneItems now ((storeOf existing).map Prod.snd)) := by
  simp only [build_items, processArticles_empty fetch h]
  rfl

/-- C4 witness: the amended description applied to a concrete run. -/
theorem C4_preserve_on_empty_amended_witness :
    build_items now2026 [staleItem] (fun _ => some []) =
      sortPublishedDesc (pruneItems now2026 ((storeOf [staleItem]).map Prod.snd)) :=
  C4_preserve_on_empty_amended now2026 [staleItem] _ (fun _ _ => Or.inr rfl)

/-- C7 counterexample: on an HTTP 429 the implemented fetch does not wait
or retry at all — `raise_for_status` makes it fail immediately for that
query, and the outcome is identical whether or not a `Retry-After` hint is
present (the header is never read). -/
theorem C7_backoff_cex :
    gdelt_fetch { status := 429, retryAfter := some 5, articles := some [] } =
      Except.error 429 ∧
    gdelt_fetch { status := 429, retryAfter := none, articles := some [] } =
      Except.error 429 := by
  constructor
  · rfl
  · rfl

/-- C7 (amended): on HTTP 429 — as on every 4xx/5xx status —
`gdelt_fetch` raises immediately via `raise_for_status`: no `Retry-After`
read, no backoff wait, no retry; the per-topic caller catches the error
and skips that query for the run. -/
theorem C7_fetch_error_amended (r : HttpResponse)
    (h : 400 ≤ r.status ∧ r.status < 600) :
    gdelt_fetch r = Except.error r.status ∧
    ∀ x, gdelt_fetch { r with retryAfter := x } = Except.error r.status := by
  constructor
  · simp [gdelt_fetch, h.1, h.2]
  · intro x
    simp [gdelt_fetch, h.1, h.2]

/-- C7 witness: the amended behavior at a concrete 5xx response. -/
theorem C7_fetch_error_amended_witness :
    gdelt_fetch { status := 503, retryAfter := none, articles := none } =
      Except.error 503 :=
  (C7_fetch_error_amended { status := 503, retryAfter := none, articles := none }
    (by decide)).1

/-- C8: signal extraction takes the first match per category, yields `none`
for the categories whose pattern is absent (component-wise, it is exactly
the first-match search of each regex), and normalizes money by the
billion/B, million/M, thousand/K multipliers; on the spec's scenario text
it returns exactly 2.5e6 / 5e4 / 120. -/
theorem C8_extract_signals_spec :
    extract_signals "$2.5 million investment, 50,000 sq ft, creating 120 jobs" =
      { investment_usd := some ⟨2500000, 0⟩, sqft := some ⟨50000, 0⟩,
        jobs := some ⟨120, 0⟩ } ∧
    (∀ t : String, extract_signals t =
      { investment_usd := moneySearch t.data, sqft := sqftSearch t.data,
        jobs := jobsSearch t.data }) ∧
    extract_signals "no signals in this text" =
      { investment_usd := none, sqft := none, jobs := none } ∧
    (extract_signals "$1 million first, then $2 billion").investment_usd =
      some ⟨1000000, 0⟩ ∧
    (extract_signals "$3 billion").investment_usd = some ⟨3000000000, 0⟩ ∧
    (extract_signals "$3 B").investment_usd = some ⟨3000000000, 0⟩ ∧
    (extract_signals "$4M").investment_usd = some ⟨4000000, 0⟩ ∧
    (extract_signals "$5 thousand").investment_usd = some ⟨5000, 0⟩ ∧
    (extract_signals "$5K").investment_usd = some ⟨5000, 0⟩ ∧
    (extract_signals "$6").investment_usd = some ⟨6, 0⟩ := by
  refine ⟨by decide, ?_, by decide, by decide, by decide, by decide, by decide,
    by decide, by decide, by decide⟩
  intro t
  by_cases h : t = ""
  · subst h
    rfl
  · simp [extract_signals, h]

/-- C9 counterexample: the compact 14-digit timestamp is not accepted —
it contains no `T`, so it is handed to
`strptime("%Y-%m-%d %H:%M:%S")`, which rejects it, and the parser returns
`None`. -/
theorem C9_parse_published_cex :
    _parse_published (some "20260107130200") = none := by
  decide

/-- C9 (amended): the parser accepts the space-separated
`YYYY-MM-DD HH:MM:SS` form and ISO-8601 forms containing `T` with an
optional `Z` (or explicit offset) suffix, mapping all of these renderings
of 2026-01-07 13:02:00 UTC to the same instant; the bare compact 14-digit
form is rejected. -/
theorem C9_parse_published_amended :
    _parse_published (some "2026-01-07 13:02:00") = some 1767790920000000 ∧
    _parse_published (some "2026-01-07T13:02:00Z") = some 1767790920000000 ∧
    _parse_published (some "2026-01-07T13:02:00") = some 1767790920000000 ∧
    _parse_published (some "2026-01-07T13:02:00+00:00") = some 1767790920000000 ∧
    _parse_published (some "20260107130200") = none := by
  refine ⟨by decide, by decide, by decide, by decide, by decide⟩

theorem findSome_eq_any (l : List String) (p : String → Bool) :
    (l.find? p).isSome = l.any p := by
  induction l with
  | nil => rfl
  | cons x xs ih =>
      rw [List.find?, List.any]
      cases hx : p x with
      | true => rfl
      | false =>
          rw [Bool.false_or]
          exact ih

/-- C6 (amended): the implemented relevance precedence, first match wins,
is (1) province keyword in the title ⇒ region and CA; (2) state keyword ⇒
region and US; (3) `sourceCountry` in {US, CA}; (4) general-Canada
keyword ⇒ CA; (5) general-USA keyword ⇒ US; else irrelevant.  Flattened,
`is_us_or_ca` is exactly the disjunction of those five tests — there is no
URL-host test at all — and title-text matches take precedence over the
`sourceCountry` metadata (second conjunct: a title province beats a
contradicting `sourceCountry`). -/
theorem C6_relevance_amended :
    (∀ a : RawArticle,
      is_us_or_ca a =
        (provinceHit (a.title.getD "") || stateHit (a.title.getD "") ||
         sourceCountryUSCA a.sourceCountry || canadaKw (a.title.getD "") ||
         usaKw (a.title.getD ""))) ∧
    detect_region_and_country "Ontario plant" (some "US") =
      (some "Ontario", some "CA") := by
  refine ⟨?_, by decide⟩
  intro a
  simp only [is_us_or_ca, provinceHit, stateHit, ← findSome_eq_any,
    detect_region_and_country]
  split
  next p hp => simp [hp]
  next hp =>
    split
    next s hs => simp [hp, hs]
    next hs =>
      rw [hp, hs]
      simp only [Option.isSome_none, Bool.false_or]
      split
      next hsc =>
        have hsc' : pyUpper (a.sourceCountry.getD "") = "US" ∨
            pyUpper (a.sourceCountry.getD "") = "CA" := by
          simpa using hsc
        rcases hsc' with h | h <;> simp [sourceCountryUSCA, h]
      next hsc =>
        have hscf : sourceCountryUSCA a.sourceCountry = false := by
          rw [sourceCountryUSCA]
          simpa using hsc
        rw [hscf, Bool.false_or]
        split
        next hck => simp [hck]
        next hck =>
          have hckf : canadaKw (a.title.getD "") = false := by
            simpa using hck
          rw [hckf, Bool.false_or]
          split
          next huk => simp [huk]
          next huk =>
            have hukf : usaKw (a.title.getD "") = false := by
              simpa using huk
            rw [hukf]
            simp

/-- C6 counterexample: an article from host `x.ca` with no US/Canada text
or metadata marker is relevant under the spec's precedence (clause 2, the
Canadian-TLD rule) but is rejected by the implemented filter, which never
looks at the URL. -/
theorem C6_relevance_cex :
    spec_isRelevant caHostArticle = true ∧ is_us_or_ca caHostArticle = false := by
  constructor
  · decide
  · decide

/-! ## New items carry a non-empty title and url (the C10 invariant chain) -/

theorem articleStep_mem (topic : Topic) (st : List String × List Item)
    (a : RawArticle) (it : Item) (h : it ∈ (articleStep topic st a).2) :
    it ∈ st.2 ∨ NewItemOK it := by
  obtain ⟨seen, acc⟩ := st
  simp only [articleStep] at h
  split at h
  next hg1 => exact Or.inl h
  next hg1 =>
    split at h
    next hg2 => exact Or.inl h
    next hg2 =>
      split at h
      next hg3 => exact Or.inl h
      next hg3 =>
        rcases List.mem_append.mp h with h | h
        · exact Or.inl h
        · right
          have heq := List.mem_singleton.mp h
          subst heq
          have hg1' : ¬(pyStrip (a.url.getD "") = "" ∨
              pyStrip (a.title.getD "") = "") := by
            simpa using hg1
          refine ⟨?_, ?_, by simp⟩
          · show truthyS (some (pyStrip (a.title.getD ""))) = true
            simp only [truthyS, decide_eq_true_eq]
            exact fun hh => hg1' (Or.inr hh)
          · show truthyS (some (pyStrip (a.url.getD ""))) = true
            simp only [truthyS, decide_eq_true_eq]
            exact fun hh => hg1' (Or.inl hh)

theorem articleStep_foldl_mem (topic : Topic) (arts : List RawArticle) :
    ∀ (st : List String × List Item), (∀ x ∈ st.2, NewItemOK x) →
      ∀ x ∈ (arts.foldl (articleStep topic) st).2, NewItemOK x := by
  induction arts with
  | nil => intro st hst x hx; exact hst x hx
  | cons a as ih =>
      intro st hst x hx
      rw [List.foldl_cons] at hx
      refine ih _ ?_ x hx
      intro y hy
      rcases articleStep_mem topic st a y hy with h | h
      · exact hst y h
      · exact h

theorem processArticles_mem (fetch : Topic → Option (List RawArticle))
    (seen0 : List String) (it : Item) (h : it ∈ processArticles fetch seen0) :
    NewItemOK it := by
  rw [processArticles] at h
  have H : ∀ (ts : List Topic) (st : List String × List Item),
      (∀ x ∈ st.2, NewItemOK x) →
      ∀ x ∈ (ts.foldl
        (fun st topic =>
          match fetch topic with
          | none => st
          | some arts => arts.foldl (articleStep topic) st) st).2, NewItemOK x := by
    intro ts
    induction ts with
    | nil => intro st hst x hx; exact hst x hx
    | cons t ts ih =>
        intro st hst x hx
        rw [List.foldl_cons] at hx
        refine ih _ ?_ x hx
        cases hf : fetch t with
        | none =>
            intro y hy
            exact hst y hy
        | some arts =>
            intro y hy
            exact articleStep_foldl_mem t arts st hst y hy
  exact H TOPICS (seen0, []) (by simp) it h

/-- Entries of the within-run merged dict: sound values with matching key. -/
theorem mergedPhase_mem (items : List Item) (hitems : ∀ x ∈ items, NewItemOK x)
    (e : String × Item) (h : e ∈ mergedPhase items) :
    NewItemOK e.2 ∧ e.2.id = some e.1 := by
  rw [mergedPhase] at h
  have H : ∀ (its : List Item) (m : List (String × Item)),
      (∀ x ∈ its, NewItemOK x) →
      (∀ e' ∈ m, NewItemOK e'.2 ∧ e'.2.id = some e'.1) →
      ∀ e' ∈ its.foldl upsertMerged m, NewItemOK e'.2 ∧ e'.2.id = some e'.1 := by
    intro its
    induction its with
    | nil => intro m _ hm e' he'; exact hm e' he'
    | cons i its ih =>
        intro m hits hm e' he'
        rw [List.foldl_cons] at he'
        refine ih _ (fun x hx => hits x (List.mem_cons_of_mem _ hx)) ?_ e' he'
        intro e2 he2
        have hi := hits i (List.mem_cons_self i its)
        rw [upsertMerged] at he2
        cases hl : m.lookup (i.id.getD "") with
        | none =>
            rw [hl] at he2
            rcases List.mem_append.mp he2 with h2 | h2
            · exact hm e2 h2
            · have := List.mem_singleton.mp h2
              subst this
              refine ⟨hi, ?_⟩
              rcases Option.isSome_iff_exists.mp hi.2.2 with ⟨s, hs⟩
              simp [hs]
        | some w =>
            rw [hl] at he2
            rcases mem_updAssoc _ _ _ _ he2 with h2 | ⟨v, hv, hev⟩
            · exact hm e2 h2
            · have hold := hm (e2.1, v) (by rw [show e2.1 = (e2.1, v).1 from rfl] at hv; exact hv)
              rw [hev]
              exact ⟨⟨hold.1.1, hold.1.2.1, hold.1.2.2⟩, by
                have he1 : e2.1 = i.id.getD "" := by rw [hev]
                simpa [he1.symm] using hold.2⟩
  exact H items [] hitems (by simp) e h

/-- Entries of the seeded store dict come from the existing items, key =
id. -/
theorem storeOf_mem (existing : List Item) (e : String × Item)
    (h : e ∈ storeOf existing) : e.2 ∈ existing ∧ e.2.id = some e.1 := by
  rw [storeOf] at h
  have H : ∀ (its : List Item) (s0 : List (String × Item)),
      (∀ x ∈ its, x ∈ existing) →
      (∀ e' ∈ s0, e'.2 ∈ existing ∧ e'.2.id = some e'.1) →
      ∀ e' ∈ its.foldl
        (fun s it =>
          match it.id with
          | none => s
          | some i => if i = "" then s else upsertStore s i it) s0,
        e'.2 ∈ existing ∧ e'.2.id = some e'.1 := by
    intro its
    induction its with
    | nil => intro s0 _ hs0 e' he'; exact hs0 e' he'
    | cons i its ih =>
        intro s0 hits hs0 e' he'
        rw [List.foldl_cons] at he'
        refine ih _ (fun x hx => hits x (List.mem_cons_of_mem _ hx)) ?_ e' he'
        intro e2 he2
        cases hid : i.id with
        | none =>
            simp only [hid] at he2
            exact hs0 e2 he2
        | some k =>
            simp only [hid] at he2
            by_cases hk : k = ""
            · rw [if_pos hk] at he2
              exact hs0 e2 he2
            · rw [if_neg hk, upsertStore] at he2
              cases hl : s0.lookup k with
              | none =>
                  rw [hl] at he2
                  rcases List.mem_append.mp he2 with h2 | h2
                  · exact hs0 e2 h2
                  · have he : e2 = (k, i) := List.mem_singleton.mp h2
                    rw [he]
                    exact ⟨hits i (List.mem_cons_self i its), hid⟩
              | some w =>
                  rw [hl] at he2
                  rcases mem_updAssoc _ _ _ _ he2 with h2 | ⟨v, hv, hev⟩
                  · exact hs0 e2 h2
                  · rw [hev]
                    exact ⟨hits i (List.mem_cons_self i its), hid⟩
  exact H existing [] (fun x hx => hx) (by simp) e h

theorem mem_keysOf (s : List (String × Item)) (k : String) :
    k ∈ keysOf s ↔ ∃ v, (k, v) ∈ s := by
  rw [keysOf]
  constructor
  · intro h
    rcases List.mem_map.mp h with ⟨e, he, hek⟩
    refine ⟨e.2, ?_⟩
    rw [← hek]
    exact he
  · rintro ⟨v, hv⟩
    exact List.mem_map.mpr ⟨(k, v), hv, rfl⟩

theorem mergeUpd_id (it old : Item) : (mergeUpd it old).id = old.id := rfl

theorem NewItemOK_mergeUpd (it old : Item) (h : NewItemOK old) :
    NewItemOK (mergeUpd it old) := by
  refine ⟨?_, h.2.1, h.2.2⟩
  show truthyS (fillField old.title it.title) = true
  rw [truthyS_fillField _ _ h.1]
  exact h.1

/-- Invariant of the store-merge fold: every entry has key = id, and is
either keyed by an id already present in the seeded store or satisfies the
new-item property. -/
theorem storeMerge_mem (keys0 : List String) (ms : List (String × Item)) :
    ∀ (s0 : List (String × Item)),
      (∀ e ∈ ms, NewItemOK e.2 ∧ e.2.id = some e.1) →
      (∀ e ∈ s0, e.2.id = some e.1 ∧ (e.1 ∈ keys0 ∨ NewItemOK e.2)) →
      ∀ e ∈ ms.foldl (fun s kv => mergeStoreOne s kv.1 kv.2) s0,
        e.2.id = some e.1 ∧ (e.1 ∈ keys0 ∨ NewItemOK e.2) := by
  induction ms with
  | nil => intro s0 _ hs0 e he; exact hs0 e he
  | cons kv ms ih =>
      intro s0 hms hs0 e he
      rw [List.foldl_cons] at he
      refine ih _ (fun e' he' => hms e' (List.mem_cons_of_mem _ he')) ?_ e he
      intro e' he'
      have hkv := hms kv (List.mem_cons_self kv ms)
      rw [mergeStoreOne] at he'
      cases hl : s0.lookup kv.1 with
      | none =>
          rw [hl] at he'
          rcases List.mem_append.mp he' with h2 | h2
          · exact hs0 e' h2
          · have := List.mem_singleton.mp h2
            subst this
            exact ⟨hkv.2, Or.inr hkv.1⟩
      | some w =>
          rw [hl] at he'
          rcases mem_updAssoc _ _ _ _ he' with h2 | ⟨v, hv, hev⟩
          · exact hs0 e' h2
          · have hold := hs0 (e'.1, v) hv
            rw [hev]
            have he1 : e'.1 = kv.1 := by rw [hev]
            refine ⟨?_, ?_⟩
            · rw [mergeUpd_id]
              simpa [he1.symm] using hold.1
            · rcases hold.2 with h3 | h3
              · exact Or.inl (by simpa [he1.symm] using h3)
              · exact Or.inr (NewItemOK_mergeUpd _ _ h3)

theorem mem_insertDesc (x y : Item) (l : List Item) :
    y ∈ insertDesc x l ↔ y = x ∨ y ∈ l := by
  induction l with
  | nil => simp [insertDesc]
  | cons z zs ih =>
      rw [insertDesc]
      by_cases h : sortKey z < sortKey x
      · rw [if_pos h]
        simp [List.mem_cons]
      · rw [if_neg h]
        simp only [List.mem_cons, ih]
        tauto

theorem mem_sortFold (l : List Item) :
    ∀ (acc : List Item) (x : Item),
      x ∈ l.foldl (fun acc x => insertDesc x acc) acc ↔ x ∈ acc ∨ x ∈ l := by
  induction l with
  | nil => intro acc x; simp
  | cons a as ih =>
      intro acc x
      rw [List.foldl_cons, ih, mem_insertDesc]
      simp only [List.mem_cons]
      tauto

theorem mem_sortPublishedDesc (x : Item) (l : List Item) :
    x ∈ sortPublishedDesc l ↔ x ∈ l := by
  rw [sortPublishedDesc, mem_sortFold]
  simp

/-- C10: every item a run newly inserts into the store (its id matches no
existing item's id) has a non-empty title and a non-empty url — articles
with a blank or missing url or title never contribute an item. -/
theorem C10_new_items_have_title_and_url (now : Int) (existing : List Item)
    (fetch : Topic → Option (List RawArticle)) (it : Item)
    (hmem : it ∈ build_items now existing fetch)
    (hnew : ∀ e ∈ existing, e.id ≠ it.id) :
    truthyS it.title = true ∧ truthyS it.url = true := by
  simp only [build_items] at hmem
  rw [mem_sortPublishedDesc, pruneItems] at hmem
  have hmem2 := (List.mem_filter.mp hmem).1
  rcases List.mem_map.mp hmem2 with ⟨e, he, hev⟩
  have hmerged : ∀ e' ∈ mergedPhase (processArticles fetch (seedSeen existing)),
      NewItemOK e'.2 ∧ e'.2.id = some e'.1 :=
    fun e' he' =>
      mergedPhase_mem _ (fun x hx => processArticles_mem fetch _ x hx) e' he'
  have hinv := storeMerge_mem (keysOf (storeOf existing)) _ (storeOf existing)
    hmerged
    (fun e' he' =>
      ⟨(storeOf_mem existing e' he').2,
       Or.inl ((mem_keysOf _ _).mpr ⟨e'.2, by
         have := (storeOf_mem existing e' he').2
         exact (by rwa [show (e'.1, e'.2) = e' from rfl])⟩)⟩)
    e he
  rcases hinv.2 with hkey | hok
  · rcases (mem_keysOf _ _).mp hkey with ⟨w, hw⟩
    have hst := storeOf_mem existing (e.1, w) hw
    exfalso
    refine hnew w hst.1 ?_
    rw [hst.2, ← hev]
    exact hinv.1.symm
  · rw [← hev]
    exact ⟨hok.1, hok.2.1⟩

set_option maxRecDepth 1000000 in
/-- C10 witness: the theorem applied to a concrete run into an empty store. -/
theorem C10_new_items_have_title_and_url_witness :
    truthyS ((build_items now2026 [] fetchOneArticle).headD emptyItem).title = true ∧
    truthyS ((build_items now2026 [] fetchOneArticle).headD emptyItem).url = true :=
  C10_new_items_have_title_and_url now2026 [] fetchOneArticle _ (by decide)
    (fun e he => absurd he (List.not_mem_nil e))

end Gen
